import Mathlib

/-!
Shallow embedding of the asynchronous sequencing material of the repository
bhattacharya-arka/js-kt.  The concrete code lives in src/practice/script.js
(the functions getData and getAllData) and in the code blocks of
src/Readme.md (getMultipleUsers and robustGetUserData).  The sequencing
utility runSequence with its strategy enum exists only in the specification;
the definitions carrying it are marked as modelled from the spec.
-/

namespace JsKt

/-- Error values a simulated fetch can fail with: the specification names
TimeoutError as the failure of a fetch whose delay exceeds its cap. -/
inductive Err where
  | timeout
deriving DecidableEq, Repr

/-- Settlement of a JavaScript promise: the executor either resolves with a
value or rejects with an error. -/
inductive Settle (α : Type) (ε : Type) where
  | resolve (v : α)
  | reject (e : ε)
deriving DecidableEq, Repr

/-- A simulated JavaScript promise: the console lines it emits, the total
timer delay before it settles, and its settlement. -/
structure JsPromise (α : Type) (ε : Type) where
  logs : List String
  delay : Nat
  settle : Settle α ε
deriving DecidableEq, Repr

/-- Embedding of getData from src/practice/script.js: after a 3000 ms timer
it logs one line and calls resolve with 200; the reject callback appears in
the executor but is never invoked on any path. -/
def getData (dataID : Int) : JsPromise Nat Err :=
  { logs := ["data " ++ toString dataID], delay := 3000, settle := .resolve 200 }

/-- Await a promise, then continue: on resolve the continuation runs, logs
and delays accumulating in order; a rejection short-circuits the rest. -/
def awaitP (p : JsPromise α ε) (k : α → JsPromise β ε) : JsPromise β ε :=
  match p.settle with
  | .resolve v =>
    let q := k v
    { logs := p.logs ++ q.logs, delay := p.delay + q.delay, settle := q.settle }
  | .reject e => { logs := p.logs, delay := p.delay, settle := .reject e }

/-- A console.log line emitted before the rest of the computation. -/
def logP (s : String) (p : JsPromise α ε) : JsPromise α ε :=
  { p with logs := s :: p.logs }

/-- An already settled promise carrying a value, with no logs and no delay. -/
def pureP (v : α) : JsPromise α ε :=
  { logs := [], delay := 0, settle := .resolve v }

/-- Embedding of getAllData from src/practice/script.js: it logs an
announcement, awaits getData for the ids 1, 2, 3 in order, discards each
resolved value, and resolves with undefined (the unit value). -/
def getAllData : JsPromise Unit Err :=
  logP "getting data 1" <| awaitP (getData 1) fun _ =>
  logP "getting data 2" <| awaitP (getData 2) fun _ =>
  logP "getting data 3" <| awaitP (getData 3) fun _ =>
  pureP ()

/-- Modelled from the spec: the strategy enum of runSequence (section 6);
the repository has no such enum, only the three idioms the strategies name. -/
inductive Strategy where
  | STRICT
  | PARALLEL
  | TOLERANT
deriving DecidableEq, Repr

/-- Modelled from the spec: the DelayedValueSource fetch contract
(section 4.1) — the fetch fails with TimeoutError when its delay exceeds the
caller-specified cap, and otherwise yields the value associated with the id,
which in the repository (getData) is 200 for every id. -/
def fetchSim (_dataID : Int) (delayMs : Nat) (timeoutMs : Nat) : Except Err Nat :=
  if timeoutMs < delayMs then .error .timeout else .ok 200

/-- Outcome of one strict sequential run: the composed result, the ids
actually fetched in issue order, and the diagnostic lines in emission
order. -/
structure StrictRun (ε : Type) where
  result : Except ε (List Nat)
  calls : List Int
  logs : List String
deriving Repr

/-- Modelled from the spec: the STRICT strategy (section 4.2), generalising
the await chain of getAllData — for each id in order, announce it, await its
fetch, record its completion line, and abort the whole run on the first
failure with no further fetch issued. -/
def strictRun (f : Int → Except ε Nat) : List Int → StrictRun ε
  | [] => ⟨.ok [], [], []⟩
  | i :: rest =>
    match f i with
    | .error e => ⟨.error e, [i], ["getting data " ++ toString i]⟩
    | .ok v =>
      let r := strictRun f rest
      ⟨r.result.map (fun vs => v :: vs), i :: r.calls,
        ("getting data " ++ toString i) :: ("data " ++ toString i) :: r.logs⟩

/-- The log trace the claims describe for a strict run: for each id in input
order, the announcement line immediately followed by the completion line. -/
def strictExpectedLogs : List Int → List String
  | [] => []
  | i :: rest =>
    ("getting data " ++ toString i) :: ("data " ++ toString i) :: strictExpectedLogs rest

/-- One concurrently issued fetch in the parallel strategy: its timer delay
and its eventual outcome. -/
structure DelayedPromise (α : Type) (ε : Type) where
  delay : Nat
  outcome : Except ε α
deriving Repr

/-- Folding step selecting the earliest rejection: a fulfilled promise keeps
the accumulator, a rejection replaces it when it settles strictly earlier,
ties broken in favour of the earlier issue position. -/
def rejStep (acc : Option (Nat × ε)) (p : DelayedPromise α ε) : Option (Nat × ε) :=
  match p.outcome with
  | .ok _ => acc
  | .error e =>
    match acc with
    | none => some (p.delay, e)
    | some (d, e0) => if p.delay < d then some (p.delay, e) else some (d, e0)

/-- Earliest rejection among the given promises, by delay with ties broken
by issue order; none when every promise fulfills. -/
def firstRejection (ps : List (DelayedPromise α ε)) : Option (Nat × ε) :=
  ps.foldl rejStep none

/-- Semantics of JavaScript Promise.all over simulated delayed promises:
reject with the earliest rejection when one exists, otherwise fulfill with
the values placed in input order, whatever the delays were. -/
def promiseAll (ps : List (DelayedPromise α ε)) : Except ε (List α) :=
  match firstRejection ps with
  | some pr => .error pr.2
  | none => .ok (ps.filterMap (fun p => p.outcome.toOption))

/-- Embedding of getMultipleUsers from src/Readme.md: map each user id to
its database fetch and await them all with Promise.all; the database fetch
is a parameter because the Readme leaves fetchFromDatabase undefined. -/
def getMultipleUsers (fetchFromDatabase : Int → DelayedPromise Int ε)
    (userIds : List Int) : Except ε (List Int) :=
  promiseAll (userIds.map fetchFromDatabase)

/-- Result record of robustGetUserData: the user together with the possibly
degraded posts and comments. -/
structure UserData where
  user : Int
  posts : List Int
  comments : List Int
deriving DecidableEq, Repr

/-- Embedding of robustGetUserData from src/Readme.md: the database fetch is
mandatory; a posts failure is swallowed and replaced by the empty array;
comments are fetched only when posts is non-empty, their failure again
replaced by the empty array.  Users, posts and comments are represented by
their integer ids because the Readme leaves the three fetchers undefined. -/
def robustGetUserData (fetchFromDatabase : Int → Except ε Int)
    (fetchUserPosts : Int → Except ε (List Int))
    (fetchPostComments : Int → Except ε (List Int))
    (userId : Int) : Except ε UserData :=
  match fetchFromDatabase userId with
  | .error e => .error e
  | .ok user =>
    let posts : List Int :=
      match fetchUserPosts user with
      | .error _ => []
      | .ok ps => ps
    let comments : List Int :=
      match posts.head? with
      | none => []
      | some p0 =>
        match fetchPostComments p0 with
        | .error _ => []
        | .ok cs => cs
    .ok ⟨user, posts, comments⟩

/-- Modelled from the spec: the TOLERANT strategy of runSequence (sections
4.2 and 6) — the first id is mandatory, later fetch failures are recorded as
absent stages; the empty id list skips every stage. -/
def tolerantRun (f : Int → Except ε Nat) : List Int → Except ε (List (Option Nat))
  | [] => .ok []
  | i :: rest =>
    match f i with
    | .error e => .error e
    | .ok v => .ok (some v :: rest.map (fun j => (f j).toOption))

/-- Modelled from the spec: runSequence (section 6) — fetch each id with the
uniform per-fetch delay against the timeout cap and compose per the chosen
strategy; present values are wrapped in some, absent tolerant stages are
none. -/
def runSequence (ids : List Int) (strategy : Strategy)
    (perFetchDelayMs : Nat) (timeoutMs : Nat) : Except Err (List (Option Nat)) :=
  match strategy with
  | .STRICT =>
    ((strictRun (fun i => fetchSim i perFetchDelayMs timeoutMs) ids).result).map
      (fun vs => vs.map some)
  | .PARALLEL =>
    (promiseAll (ids.map (fun i =>
      ⟨perFetchDelayMs, fetchSim i perFetchDelayMs timeoutMs⟩))).map
      (fun vs => vs.map some)
  | .TOLERANT => tolerantRun (fun i => fetchSim i perFetchDelayMs timeoutMs) ids

/-- Modelled from the spec: the diagnostic side channel of one runSequence
invocation; for PARALLEL the completion order among equal delays is a
scheduler choice (section 5), represented by the sched parameter. -/
def runSequenceLogs (sched : List Int → List Int) (ids : List Int)
    (strategy : Strategy) (perFetchDelayMs : Nat) (timeoutMs : Nat) : List String :=
  match strategy with
  | .STRICT => (strictRun (fun i => fetchSim i perFetchDelayMs timeoutMs) ids).logs
  | .PARALLEL =>
    (sched ids).filterMap (fun i =>
      match fetchSim i perFetchDelayMs timeoutMs with
      | .ok _ => some ("data " ++ toString i)
      | .error _ => none)
  | .TOLERANT =>
    ids.filterMap (fun i =>
      match fetchSim i perFetchDelayMs timeoutMs with
      | .ok _ => some ("data " ++ toString i)
      | .error _ => none)

/-- A full runSequence invocation: the composed value result together with
the diagnostic log lines. -/
structure RunOutput where
  result : Except Err (List (Option Nat))
  logs : List String
deriving Repr

/-- Modelled from the spec: the full observable behaviour of one runSequence
invocation under a given diagnostic scheduler. -/
def runSequenceFull (sched : List Int → List Int) (ids : List Int)
    (strategy : Strategy) (perFetchDelayMs : Nat) (timeoutMs : Nat) : RunOutput :=
  ⟨runSequence ids strategy perFetchDelayMs timeoutMs,
   runSequenceLogs sched ids strategy perFetchDelayMs timeoutMs⟩

/-- A concrete fetch oracle used by witnesses: id 0 fails with a timeout,
every other id fetches the value 1. -/
def sampleOracle (i : Int) : Except Err Nat :=
  if i = 0 then .error .timeout else .ok 1

/-- When every fetch succeeds, a strict run fulfills with the fetched values
in input order, issues exactly the input ids in order, and emits the
announcement-then-completion trace. -/
theorem strictRun_ok (f : Int → Except ε Nat) (g : Int → Nat)
    (hok : ∀ i, f i = .ok (g i)) (ids : List Int) :
    strictRun f ids = ⟨.ok (ids.map g), ids, strictExpectedLogs ids⟩ := by
  induction ids with
  | nil => rfl
  | cons i rest ih =>
    simp [strictRun, hok i, ih, strictExpectedLogs, Except.map]

/-- Folding the rejection selector over promises that all fulfill leaves the
accumulator unchanged. -/
theorem foldl_rejStep_ok (ps : List (DelayedPromise α ε))
    (h : ∀ p ∈ ps, ∃ v, p.outcome = .ok v) :
    ∀ acc, ps.foldl rejStep acc = acc := by
  induction ps with
  | nil => intro acc; rfl
  | cons p rest ih =>
    intro acc
    obtain ⟨v, hv⟩ := h p (by simp)
    rw [List.foldl_cons, show rejStep acc p = acc by simp [rejStep, hv]]
    exact ih (fun q hq => h q (by simp [hq])) acc

/-- Promise.all over promises that all fulfill yields their values in input
order. -/
theorem promiseAll_ok (ps : List (DelayedPromise α ε))
    (h : ∀ p ∈ ps, ∃ v, p.outcome = .ok v) :
    promiseAll ps = .ok (ps.filterMap (fun p => p.outcome.toOption)) := by
  unfold promiseAll firstRejection
  rw [foldl_rejStep_ok ps h none]

/-- Collecting the outcome values of a list of everywhere fulfilled delayed
promises built from ids yields the value of each id, in input order. -/
theorem filterMap_outcome_map (val : Int → Int) (d : Int → Nat) :
    ∀ ids : List Int,
      List.filterMap (fun p : DelayedPromise Int Err => p.outcome.toOption)
        (ids.map fun i => (⟨d i, .ok (val i)⟩ : DelayedPromise Int Err))
        = ids.map val
  | [] => rfl
  | i :: rest => by
    rw [List.map_cons]
    have h1 : List.filterMap (fun p : DelayedPromise Int Err => p.outcome.toOption)
        ((⟨d i, .ok (val i)⟩ : DelayedPromise Int Err) ::
          (rest.map fun j => (⟨d j, .ok (val j)⟩ : DelayedPromise Int Err)))
        = val i :: List.filterMap (fun p : DelayedPromise Int Err => p.outcome.toOption)
            (rest.map fun j => (⟨d j, .ok (val j)⟩ : DelayedPromise Int Err)) := rfl
    rw [h1, filterMap_outcome_map val d rest, List.map_cons]

/-- getMultipleUsers over a database whose every fetch fulfills yields the
fetched values in the order of the requested ids, whatever the delays. -/
theorem getMultipleUsers_ok (val : Int → Int) (d : Int → Nat)
    (userIds : List Int) :
    getMultipleUsers (fun i => (⟨d i, .ok (val i)⟩ : DelayedPromise Int Err)) userIds
      = .ok (userIds.map val) := by
  unfold getMultipleUsers
  rw [promiseAll_ok]
  · rw [filterMap_outcome_map val d userIds]
  · intro p hp
    simp only [List.mem_map] at hp
    obtain ⟨i, _, rfl⟩ := hp
    exact ⟨val i, rfl⟩

/-- C1: for every non-empty id sequence whose fetches all succeed, the
STRICT strategy yields a result whose values appear in the same order as the
input ids, and the fetches are issued exactly in input order, each awaited
before the next is issued. -/
theorem strict_preserves_order (f : Int → Except Err Nat) (g : Int → Nat)
    (ids : List Int) (_hne : ids ≠ [])
    (hok : ∀ i, f i = .ok (g i)) :
    (strictRun f ids).result = .ok (ids.map g) ∧ (strictRun f ids).calls = ids := by
  rw [strictRun_ok f g hok ids]
  exact ⟨rfl, rfl⟩

/-- Witness for C1 at the concrete input [5, 7] with the fetch mapping each
id to its absolute value. -/
theorem strict_preserves_order_witness :
    (strictRun (fun i : Int => (Except.ok i.natAbs : Except Err Nat)) [5, 7]).result
        = .ok [5, 7] ∧
    (strictRun (fun i : Int => (Except.ok i.natAbs : Except Err Nat)) [5, 7]).calls
        = [5, 7] :=
  strict_preserves_order _ (fun i => i.natAbs) [5, 7] (by decide) (fun _ => rfl)

/-- C2: runSequence on the ids [1, 2, 3] with the STRICT strategy, a 3000 ms
per-fetch delay and a 5000 ms timeout cap fulfills with the composed result
[200, 200, 200], and under these parameters every fetch resolves with the
value 200 whatever its id. -/
theorem runSequence_example_strict :
    runSequence [1, 2, 3] .STRICT 3000 5000 = .ok [some 200, some 200, some 200] ∧
    ∀ i : Int, fetchSim i 3000 5000 = .ok 200 :=
  ⟨rfl, fun _ => rfl⟩

/-- C3: a fetch rejects with TimeoutError exactly when its delay exceeds the
timeout cap, otherwise it yields the value associated with its id (200 for
every id, as in getData); in particular the PARALLEL run over [1, 2] with a
3000 ms delay and a 1000 ms cap fails with TimeoutError and returns no
successful value. -/
theorem fetch_timeout_iff (i : Int) (delayMs timeoutMs : Nat) :
    (fetchSim i delayMs timeoutMs = .error .timeout ↔ timeoutMs < delayMs) ∧
    (delayMs ≤ timeoutMs → fetchSim i delayMs timeoutMs = .ok 200) ∧
    runSequence [1, 2] .PARALLEL 3000 1000 = .error .timeout := by
  refine ⟨?_, ?_, rfl⟩
  · unfold fetchSim
    by_cases h : timeoutMs < delayMs <;> simp [h]
  · intro hle
    unfold fetchSim
    simp [Nat.not_lt.mpr hle]

/-- Witness for C3 at the concrete input id 1, delay 3000 ms, cap 5000 ms. -/
theorem fetch_timeout_iff_witness :
    (3000 : Nat) ≤ 5000 ∧ fetchSim 1 3000 5000 = .ok 200 :=
  ⟨by decide, (fetch_timeout_iff 1 3000 5000).2.1 (by decide)⟩

/-- C4: in the STRICT strategy a failure at position k (1-indexed, after
k - 1 successes) aborts the run: exactly the first k fetches are issued, no
fetch after the failing one, and the single failure propagates to the caller
with no result values attached. -/
theorem strict_abort_on_failure (f : Int → Except Err Nat) (pre post : List Int)
    (bad : Int) (e : Err)
    (hpre : ∀ i ∈ pre, ∃ v, f i = .ok v) (hbad : f bad = .error e) :
    (strictRun f (pre ++ bad :: post)).result = .error e ∧
    (strictRun f (pre ++ bad :: post)).calls = pre ++ [bad] ∧
    (strictRun f (pre ++ bad :: post)).calls.length = pre.length + 1 := by
  induction pre with
  | nil => simp [strictRun, hbad]
  | cons i rest ih =>
    obtain ⟨v, hv⟩ := hpre i (by simp)
    have h := ih (fun j hj => hpre j (by simp [hj]))
    refine ⟨?_, ?_, ?_⟩ <;>
      simp [strictRun, hv, h.1, h.2.1, Except.map]

/-- Witness for C4: with the sample oracle failing only on id 0, the run
over [1, 2, 0, 3] rejects after issuing exactly the fetches 1, 2, 0. -/
theorem strict_abort_on_failure_witness :
    (strictRun sampleOracle [1, 2, 0, 3]).result = .error .timeout ∧
    (strictRun sampleOracle [1, 2, 0, 3]).calls = [1, 2, 0] := by
  have h := strict_abort_on_failure sampleOracle [1, 2] [3] 0 .timeout
    (by
      intro i hi
      have h2 : i = 1 ∨ i = 2 := by simpa using hi
      rcases h2 with rfl | rfl <;> exact ⟨1, rfl⟩)
    rfl
  exact ⟨h.1, h.2.1⟩

/-- C5: in robustGetUserData a failure of the second stage is not fatal —
the run still fulfills, with the fetched user present, the posts stage
absent (the empty default) and the comments stage computed over that empty
default, hence skipped and empty; only a failure of the mandatory database
stage rejects the whole run. -/
theorem tolerant_second_stage_failure (fdb : Int → Except Err Int)
    (fup : Int → Except Err (List Int)) (fpc : Int → Except Err (List Int))
    (userId u : Int) (e : Err)
    (hu : fdb userId = .ok u) (hp : fup u = .error e) :
    robustGetUserData fdb fup fpc userId = .ok ⟨u, [], []⟩ ∧
    ∀ v e2, fdb v = .error e2 → robustGetUserData fdb fup fpc v = .error e2 := by
  constructor
  · simp [robustGetUserData, hu, hp]
  · intro v e2 hv
    simp [robustGetUserData, hv]

/-- Witness for C5: a database returning the successor of the id, a posts
fetch that always times out and a comments fetch that would return [9]. -/
theorem tolerant_second_stage_failure_witness :
    robustGetUserData (fun i : Int => (Except.ok (i + 1) : Except Err Int))
      (fun _ : Int => (Except.error .timeout : Except Err (List Int)))
      (fun _ : Int => (Except.ok [9] : Except Err (List Int))) 4 = .ok ⟨5, [], []⟩ :=
  (tolerant_second_stage_failure _ _ _ 4 5 .timeout rfl rfl).1

/-- C6: the PARALLEL strategy of getMultipleUsers places each fetched value
at the index of its originating id — for any delay assignment the result is
the values in input order, and two runs differing only in completion timing
are equal. -/
theorem parallel_order_matches_input (val : Int → Int) (d1 d2 : Int → Nat)
    (userIds : List Int) :
    getMultipleUsers (fun i => (⟨d1 i, .ok (val i)⟩ : DelayedPromise Int Err)) userIds
        = .ok (userIds.map val) ∧
    getMultipleUsers (fun i => (⟨d1 i, .ok (val i)⟩ : DelayedPromise Int Err)) userIds
        = getMultipleUsers (fun i => (⟨d2 i, .ok (val i)⟩ : DelayedPromise Int Err)) userIds :=
  ⟨getMultipleUsers_ok val d1 userIds,
   (getMultipleUsers_ok val d1 userIds).trans (getMultipleUsers_ok val d2 userIds).symm⟩

/-- C7: runSequence is deterministic — the value result of a full run does
not depend on the diagnostic scheduling of the side channel, and two
invocations with identical arguments are value-equal. -/
theorem runSequence_deterministic (sched1 sched2 : List Int → List Int)
    (ids : List Int) (strategy : Strategy) (d t : Nat) :
    (runSequenceFull sched1 ids strategy d t).result =
      (runSequenceFull sched2 ids strategy d t).result ∧
    runSequence ids strategy d t = runSequence ids strategy d t :=
  ⟨rfl, rfl⟩

/-- C8: under the STRICT strategy with every fetch inside its cap, the
diagnostic log is, for each id in input order, the announcement line
immediately followed by the completion line of that id — no later id event
precedes an earlier completion — and getAllData realises exactly this trace
for the ids 1, 2, 3. -/
theorem strict_logs_ordered (sched : List Int → List Int) (ids : List Int)
    (d t : Nat) (h : d ≤ t) :
    runSequenceLogs sched ids .STRICT d t = strictExpectedLogs ids ∧
    getAllData.logs = strictExpectedLogs [1, 2, 3] := by
  constructor
  · show (strictRun (fun i => fetchSim i d t) ids).logs = strictExpectedLogs ids
    rw [strictRun_ok (fun i => fetchSim i d t) (fun _ => 200)
      (fun i => by unfold fetchSim; simp [Nat.not_lt.mpr h]) ids]
  · decide

/-- Witness for C8 at the concrete ids [4, 5] with a 3000 ms delay under a
5000 ms cap and the identity diagnostic scheduler. -/
theorem strict_logs_ordered_witness :
    runSequenceLogs (fun l => l) [4, 5] .STRICT 3000 5000 = strictExpectedLogs [4, 5] ∧
    getAllData.logs = strictExpectedLogs [1, 2, 3] :=
  strict_logs_ordered (fun l => l) [4, 5] 3000 5000 (by decide)

/-- C9: the promise returned by getData always fulfills — for every dataID
its settlement is resolve 200, and it is never a rejection, so no error
branch at a caller is reachable. -/
theorem getData_never_rejects (dataID : Int) :
    (getData dataID).settle = .resolve 200 ∧
    ∀ e, (getData dataID).settle ≠ .reject e :=
  ⟨rfl, fun e h => by simp [getData] at h⟩

/-- C10: getAllData discards the value resolved by every fetch it awaits and
itself resolves with undefined (the unit value); its 9000 ms total delay
records the three awaited 3000 ms fetches. -/
theorem getAllData_resolves_unit :
    getAllData.settle = .resolve () ∧ getAllData.delay = 9000 :=
  ⟨rfl, rfl⟩

end JsKt
